import Mathlib

/-!
# Verification of the HyperNova POC instance-folding core (`src/lcccs.rs`)

Shallow embedding of the CCCS/LCCCS instance data model and its three
operations: construction from a satisfying assignment (`to_cccs`, `to_lcccs`),
relation verification (`check_relation` on each instance shape), and folding
(`fold`, `fold_witness`).

The source file `lcccs.rs` consumes several collaborators that the design
document declares external black boxes (the CCS shape's polynomial oracles,
the Pedersen commitment scheme, and the boolean-hypercube enumerator).  Those
collaborators are modelled from the design document; everything in `lcccs.rs`
itself is translated directly.
-/

namespace HyperNova

/-- The order of the scalar field of BLS12-381, i.e. the modulus of
`ark_bls12_381::Fr`. -/
def blsR : ℕ := 52435875175126190479447740508185965837690552500527637822603658699938581184513

/-- The field `Fr = ark_bls12_381::Fr`, the scalar field of BLS12-381. -/
abbrev Fr : Type := ZMod blsR

/-- Modelled from the spec: the Pedersen commitment parameters (`pedersen.rs`
is not under `src/`).  The spec only requires an additively homomorphic
commitment `commit(Params, vector, blinding)` over an opaque abelian group; we
take the group to be the additive group of `Fr` and the parameters to be a
blinding generator `h` together with a list of vector generators `gs`. -/
structure PedersenParams where
  h : Fr
  gs : List Fr
deriving DecidableEq

/-- The commitment newtype: `lcccs.rs` only ever reads the single group
element stored in field `.0` (here `.c`). -/
structure Commitment where
  c : Fr
deriving DecidableEq

/-- Modelled from the spec: `Pedersen::commit(params, w, r)` (`pedersen.rs` is
not under `src/`), an additively homomorphic commitment
`r·h + Σ wᵢ·gᵢ`. -/
def Pedersen.commit (params : PedersenParams) (w : List Fr) (r : Fr) : Commitment :=
  ⟨r * params.h + ((w.zip params.gs).map (fun p => p.1 * p.2)).sum⟩

/-- Modelled from the spec: the CCS shape (`ccs.rs` is not under `src/`).
It exposes the sizes `n` (full assignment length), `l` (public input length),
`s` (hypercube dimension) and `t` (matrix count), and — since the spec
declares the multilinear-evaluation oracle and the characteristic polynomial
external black boxes (§6) — carries those two oracles as function-valued
fields: `computeAllSumMzEvals z r` returns the `t` values
`Σ_y M_j(r, y)·z(y)`, and `computeQ z x` evaluates the characteristic
polynomial of `z` at the point `x`. -/
structure CCS where
  n : ℕ
  l : ℕ
  t : ℕ
  s : ℕ
  computeAllSumMzEvals : List Fr → List Fr → List Fr
  computeQ : List Fr → List Fr → Fr

/-- Modelled from the spec: the boolean hypercube enumerator
(`util/hypercube.rs` is not under `src/`): the finite sequence of all points
of `{0,1}^s`, as vectors of field elements. -/
def BooleanHypercube : ℕ → List (List Fr)
  | 0 => [[]]
  | Nat.succ k =>
      ((BooleanHypercube k).map (fun p => (0 : Fr) :: p)) ++
      ((BooleanHypercube k).map (fun p => (1 : Fr) :: p))

/-- Modelled from the spec (glossary / §8): an assignment satisfies the CCS
relation when the characteristic polynomial evaluates to zero at every point
of the boolean hypercube. -/
def CCS.satisfiesRelation (ccs : CCS) (z : List Fr) : Prop :=
  ∀ p ∈ BooleanHypercube ccs.s, ccs.computeQ z p = 0

/-- `Witness` from `lcccs.rs`: the private vector `w` and the Pedersen
blinding `r_w`. -/
structure Witness where
  w : List Fr
  r_w : Fr
deriving DecidableEq

/-- `CCCS` from `lcccs.rs`: committed CCS instance. -/
structure CCCS where
  ccs : CCS
  C : Commitment
  x : List Fr

/-- `LCCCS` from `lcccs.rs`: linearized committed CCS instance. -/
structure LCCCS where
  ccs : CCS
  C : Commitment
  u : Fr
  x : List Fr
  r_x : List Fr
  v : List Fr

/-- `CCSError` from `ccs.rs` (declaration only; the variant used by
`lcccs.rs` is `NotSatisfied`). -/
inductive CCSError where
  | notSatisfied
deriving DecidableEq

/-- Result of running one of the `check_relation` methods.  `ok` and `err`
model the Rust `Result` values; `aborted` models a failed `assert_eq!`, which
terminates the process instead of returning. -/
inductive RunResult where
  | ok
  | err (e : CCSError)
  | aborted
deriving DecidableEq

/-- `CCS::compute_v_j` from `lcccs.rs`: given `r`, compute
`Σ_{y ∈ {0,1}^s'} M_j(r, y)·z(y)` for every `j`, by delegating to the
external multilinear-evaluation oracle. -/
def CCS.compute_v_j (ccs : CCS) (z : List Fr) (r : List Fr) : List Fr :=
  ccs.computeAllSumMzEvals z r

/-- `CCS::to_lcccs` from `lcccs.rs`.  The borrowed random generator is
modelled, as the spec's §9 directs, as an injected stream of uniform field
elements: draw `i` returns `rng i`.  The method draws the blinding `r_w`
first, then the `s` coordinates of `r_x`. -/
def CCS.to_lcccs (ccs : CCS) (rng : ℕ → Fr) (pedersen_params : PedersenParams)
    (z : List Fr) : LCCCS × Witness :=
  let w : List Fr := z.drop (1 + ccs.l)
  let r_w : Fr := rng 0
  let C : Commitment := Pedersen.commit pedersen_params w r_w
  let r_x : List Fr := (List.range ccs.s).map (fun i => rng (1 + i))
  let v : List Fr := ccs.compute_v_j z r_x
  (⟨ccs, C, 1, (z.drop 1).take ccs.l, r_x, v⟩, ⟨w, r_w⟩)

/-- `CCS::to_cccs` from `lcccs.rs`, with the same randomness model as
`CCS.to_lcccs` (a single draw, for `r_w`). -/
def CCS.to_cccs (ccs : CCS) (rng : ℕ → Fr) (pedersen_params : PedersenParams)
    (z : List Fr) : CCCS × Witness :=
  let w : List Fr := z.drop (1 + ccs.l)
  let r_w : Fr := rng 0
  let C : Commitment := Pedersen.commit pedersen_params w r_w
  (⟨ccs, C, z.drop 1 |>.take ccs.l⟩, ⟨w, r_w⟩)

/-- The hypercube loop of `CCCS::check_relation`: walk the enumerated points
and return `Err(CCSError::NotSatisfied)` at the first point where the
evaluation is nonzero, `Ok(())` if the walk completes. -/
def hypercubeCheck (q : List Fr → Fr) : List (List Fr) → RunResult
  | [] => .ok
  | p :: rest => if q p ≠ 0 then .err .notSatisfied else hypercubeCheck q rest

/-- `CCCS::check_relation` from `lcccs.rs`: assert the commitment binding
(`aborted` on failure), reconstruct `z = [1] ++ x ++ w`, and scan the boolean
hypercube for a nonzero evaluation of the characteristic polynomial. -/
def CCCS.check_relation (self : CCCS) (pedersen_params : PedersenParams)
    (w : Witness) : RunResult :=
  if self.C ≠ Pedersen.commit pedersen_params w.w w.r_w then .aborted
  else
    let z : List Fr := [(1 : Fr)] ++ self.x ++ w.w
    hypercubeCheck (fun p => self.ccs.computeQ z p) (BooleanHypercube self.ccs.s)

/-- `LCCCS::check_relation` from `lcccs.rs`: assert the commitment binding,
reconstruct `z = [u] ++ x ++ w`, recompute the claimed evaluations at the
stored `r_x` and assert they equal `v` (`aborted` on either assertion
failure). -/
def LCCCS.check_relation (self : LCCCS) (pedersen_params : PedersenParams)
    (w : Witness) : RunResult :=
  if self.C ≠ Pedersen.commit pedersen_params w.w w.r_w then .aborted
  else
    let z : List Fr := [self.u] ++ self.x ++ w.w
    let computed_v := self.ccs.computeAllSumMzEvals z self.r_x
    if computed_v ≠ self.v then .aborted else .ok

/-- `LCCCS::fold` from `lcccs.rs`. -/
def LCCCS.fold (lcccs1 : LCCCS) (cccs2 : CCCS) (sigmas : List Fr)
    (thetas : List Fr) (r_x_prime : List Fr) (rho : Fr) : LCCCS :=
  let C : Commitment := ⟨lcccs1.C.c + cccs2.C.c * rho⟩
  let u : Fr := lcccs1.u + rho
  let x : List Fr :=
    (lcccs1.x.zip (cccs2.x.map (fun x_i => x_i * rho))).map (fun p => p.1 + p.2)
  let v : List Fr :=
    (sigmas.zip (thetas.map (fun x_i => x_i * rho))).map (fun p => p.1 + p.2)
  ⟨lcccs1.ccs, C, u, x, r_x_prime, v⟩

/-- `LCCCS::fold_witness` from `lcccs.rs`. -/
def LCCCS.fold_witness (w1 : Witness) (w2 : Witness) (rho : Fr) : Witness :=
  let w : List Fr :=
    (w1.w.zip (w2.w.map (fun x_i => x_i * rho))).map (fun p => p.1 + p.2)
  let r_w : Fr := w1.r_w + rho * w2.r_w
  ⟨w, r_w⟩

/-! ## Helper lemmas about the componentwise combination pattern

`fold` and `fold_witness` both combine two vectors as
`a.zip (b.map (·*rho)) |>.map (+)`; these lemmas describe that pattern. -/

theorem combine_length (a b : List Fr) (rho : Fr) :
    ((a.zip (b.map (fun x_i => x_i * rho))).map (fun p => p.1 + p.2)).length =
      min a.length b.length := by
  simp [List.length_zip]

theorem combine_getElem (a b : List Fr) (rho : Fr) (i : ℕ)
    (ha : i < a.length) (hb : i < b.length)
    (hc : i < ((a.zip (b.map (fun x_i => x_i * rho))).map (fun p => p.1 + p.2)).length) :
    ((a.zip (b.map (fun x_i => x_i * rho))).map (fun p => p.1 + p.2))[i] =
      a[i] + rho * b[i] := by
  simp only [List.getElem_map, List.getElem_zip]
  rw [mul_comm]

/-! ## Concrete example shape and instances, used to witness hypotheses -/

/-- A concrete CCS shape used to instantiate hypotheses: `n = 4`, `l = 1`,
`t = 2`, `s = 1`; the characteristic-polynomial oracle `(z₁ − 2)·p₀` vanishes
on the whole hypercube exactly when the assignment's second entry is 2. -/
def exCCS : CCS where
  n := 4
  l := 1
  t := 2
  s := 1
  computeAllSumMzEvals := fun z r => [z.sum + r.sum, (z.map (fun a => a * a)).sum]
  computeQ := fun z p => (z.getD 1 0 - 2) * p.headD 0

/-- Concrete Pedersen parameters matching `exCCS` (`n − l − 1 = 2`
generators). -/
def exParams : PedersenParams := ⟨5, [2, 3]⟩

/-- A concrete injected randomness stream. -/
def exRng : ℕ → Fr := fun i => ((i + 7 : ℕ) : Fr)

/-- A concrete satisfying assignment for `exCCS` (`z₀ = 1`, length `n`). -/
def exZ : List Fr := [1, 2, 3, 4]

/-! ## C1: components of `LCCCS::fold` -/

/-- C1: `LCCCS::fold` returns an LCCCS whose commitment is `C1 + rho·C2`,
whose accumulation scalar is `u1 + rho`, whose public input combines
componentwise as `x1_i + rho·x2_i`, whose evaluation point is exactly
`r_x_prime` (the old `r_x` is discarded), and whose claimed evaluations are
`sigmas_j + rho·thetas_j` componentwise. -/
theorem fold_components (lcccs1 : LCCCS) (cccs2 : CCCS)
    (sigmas thetas r_x_prime : List Fr) (rho : Fr)
    (hx : lcccs1.x.length = cccs2.x.length)
    (hst : sigmas.length = thetas.length) :
    (LCCCS.fold lcccs1 cccs2 sigmas thetas r_x_prime rho).C =
        ⟨lcccs1.C.c + rho * cccs2.C.c⟩ ∧
    (LCCCS.fold lcccs1 cccs2 sigmas thetas r_x_prime rho).u = lcccs1.u + rho ∧
    (LCCCS.fold lcccs1 cccs2 sigmas thetas r_x_prime rho).r_x = r_x_prime ∧
    (LCCCS.fold lcccs1 cccs2 sigmas thetas r_x_prime rho).x.length = lcccs1.x.length ∧
    (∀ i (h1 : i < lcccs1.x.length) (h2 : i < cccs2.x.length)
        (h3 : i < (LCCCS.fold lcccs1 cccs2 sigmas thetas r_x_prime rho).x.length),
      (LCCCS.fold lcccs1 cccs2 sigmas thetas r_x_prime rho).x[i] =
        lcccs1.x[i] + rho * cccs2.x[i]) ∧
    (LCCCS.fold lcccs1 cccs2 sigmas thetas r_x_prime rho).v.length = sigmas.length ∧
    (∀ j (h1 : j < sigmas.length) (h2 : j < thetas.length)
        (h3 : j < (LCCCS.fold lcccs1 cccs2 sigmas thetas r_x_prime rho).v.length),
      (LCCCS.fold lcccs1 cccs2 sigmas thetas r_x_prime rho).v[j] =
        sigmas[j] + rho * thetas[j]) := by
  refine ⟨by rw [mul_comm]; rfl, rfl, rfl, ?_, ?_, ?_, ?_⟩
  · simp [LCCCS.fold, List.length_zip, hx]
  · intro i h1 h2 h3
    exact combine_getElem lcccs1.x cccs2.x rho i h1 h2 h3
  · simp [LCCCS.fold, List.length_zip, hst]
  · intro j h1 h2 h3
    exact combine_getElem sigmas thetas rho j h1 h2 h3

/-- Witness for `fold_components` at a concrete input. -/
theorem fold_components_witness :
    ([(10 : Fr), 20].length = [(3 : Fr), 4].length ∧
      [(5 : Fr), 6].length = [(7 : Fr), 8].length) ∧
    (LCCCS.fold ⟨exCCS, ⟨2⟩, 1, [10, 20], [0], [1, 2]⟩ ⟨exCCS, ⟨3⟩, [3, 4]⟩
        [5, 6] [7, 8] [9] 2).C = ⟨(2 : Fr) + 2 * 3⟩ := by
  refine ⟨⟨rfl, rfl⟩, ?_⟩
  exact (fold_components ⟨exCCS, ⟨2⟩, 1, [10, 20], [0], [1, 2]⟩ ⟨exCCS, ⟨3⟩, [3, 4]⟩
    [5, 6] [7, 8] [9] 2 rfl rfl).1

/-! ## C4: components of `LCCCS::fold_witness` -/

/-- C4: `LCCCS::fold_witness` returns a witness whose private vector is the
componentwise combination `w1 + rho·w2` and whose blinding is
`r_w1 + rho·r_w2`. -/
theorem fold_witness_components (w1 w2 : Witness) (rho : Fr)
    (hw : w1.w.length = w2.w.length) :
    (LCCCS.fold_witness w1 w2 rho).r_w = w1.r_w + rho * w2.r_w ∧
    (LCCCS.fold_witness w1 w2 rho).w.length = w1.w.length ∧
    (∀ i (h1 : i < w1.w.length) (h2 : i < w2.w.length)
        (h3 : i < (LCCCS.fold_witness w1 w2 rho).w.length),
      (LCCCS.fold_witness w1 w2 rho).w[i] = w1.w[i] + rho * w2.w[i]) := by
  refine ⟨rfl, ?_, ?_⟩
  · simp [LCCCS.fold_witness, List.length_zip, hw]
  · intro i h1 h2 h3
    exact combine_getElem w1.w w2.w rho i h1 h2 h3

/-- Witness for `fold_witness_components` at a concrete input. -/
theorem fold_witness_components_witness :
    [(1 : Fr), 2].length = [(3 : Fr), 4].length ∧
    (LCCCS.fold_witness ⟨[1, 2], 5⟩ ⟨[3, 4], 6⟩ 7).r_w = (5 : Fr) + 7 * 6 := by
  exact ⟨rfl, (fold_witness_components ⟨[1, 2], 5⟩ ⟨[3, 4], 6⟩ 7 rfl).1⟩

/-! ## C9: fold is total and truncates to the shorter operand -/

/-- C9: `fold` and `fold_witness` are total functions (no error path); the
output `x`, `v` and `w` vectors have length the minimum of the lengths of the
two corresponding inputs: the componentwise zip silently truncates. -/
theorem fold_truncates_to_min (lcccs1 : LCCCS) (cccs2 : CCCS)
    (sigmas thetas r_x_prime : List Fr) (rho : Fr) (w1 w2 : Witness) :
    (LCCCS.fold lcccs1 cccs2 sigmas thetas r_x_prime rho).x.length =
        min lcccs1.x.length cccs2.x.length ∧
    (LCCCS.fold lcccs1 cccs2 sigmas thetas r_x_prime rho).v.length =
        min sigmas.length thetas.length ∧
    (LCCCS.fold_witness w1 w2 rho).w.length = min w1.w.length w2.w.length := by
  refine ⟨?_, ?_, ?_⟩
  · exact combine_length lcccs1.x cccs2.x rho
  · exact combine_length sigmas thetas rho
  · exact combine_length w1.w w2.w rho

/-! ## C10: `LCCCS::check_relation` has no recoverable error path -/

/-- C10: `LCCCS::check_relation` never returns an `Err` value: every run
either returns `Ok(())` or dies on an assertion. -/
theorem lcccs_check_relation_never_err (self : LCCCS) (pedersen_params : PedersenParams)
    (w : Witness) :
    self.check_relation pedersen_params w = .ok ∨
    self.check_relation pedersen_params w = .aborted := by
  unfold LCCCS.check_relation
  split
  · exact Or.inr rfl
  · dsimp only
    split
    · exact Or.inr rfl
    · exact Or.inl rfl

/-! ## Behaviour of the hypercube scan -/

theorem hypercubeCheck_eq_ok (q : List Fr → Fr) (ps : List (List Fr)) :
    hypercubeCheck q ps = .ok ↔ ∀ p ∈ ps, q p = 0 := by
  induction ps with
  | nil => simp [hypercubeCheck]
  | cons p rest ih =>
      by_cases h : q p = 0
      · simp [hypercubeCheck, h, ih]
      · simp [hypercubeCheck, h]

theorem hypercubeCheck_eq_err (q : List Fr → Fr) (ps : List (List Fr))
    (h : ∃ p ∈ ps, q p ≠ 0) :
    hypercubeCheck q ps = .err .notSatisfied := by
  induction ps with
  | nil => simp at h
  | cons p rest ih =>
      by_cases hp : q p = 0
      · rcases h with ⟨p0, hp0, hq0⟩
        rcases List.mem_cons.mp hp0 with rfl | hmem
        · exact absurd hp hq0
        · simpa [hypercubeCheck, hp] using ih ⟨p0, hmem, hq0⟩
      · simp [hypercubeCheck, hp]

/-! ## C6: CCCS relation check is exactly hypercube vanishing -/

/-- C6: past the binding check, `CCCS::check_relation` returns `Ok` iff the
characteristic polynomial of `z = [1] ++ x ++ w` evaluates to zero at every
point of the boolean hypercube, and returns `Err(NotSatisfied)` whenever some
point evaluates nonzero. -/
theorem cccs_check_relation_iff_vanishing (self : CCCS)
    (pedersen_params : PedersenParams) (w : Witness)
    (hbind : self.C = Pedersen.commit pedersen_params w.w w.r_w) :
    (self.check_relation pedersen_params w = .ok ↔
      ∀ p ∈ BooleanHypercube self.ccs.s,
        self.ccs.computeQ ([1] ++ self.x ++ w.w) p = 0) ∧
    ((∃ p ∈ BooleanHypercube self.ccs.s,
        self.ccs.computeQ ([1] ++ self.x ++ w.w) p ≠ 0) →
      self.check_relation pedersen_params w = .err .notSatisfied) := by
  unfold CCCS.check_relation
  rw [if_neg (by simp [hbind])]
  exact ⟨hypercubeCheck_eq_ok _ _, fun h => hypercubeCheck_eq_err _ _ h⟩

/-- Witness for `cccs_check_relation_iff_vanishing`: a concrete bound instance
on which the check succeeds. -/
theorem cccs_check_relation_iff_vanishing_witness :
    (CCCS.mk exCCS (Pedersen.commit exParams [3, 4] 7) [2]).C =
        Pedersen.commit exParams [3, 4] 7 ∧
    ((CCCS.mk exCCS (Pedersen.commit exParams [3, 4] 7) [2]).check_relation
        exParams ⟨[3, 4], 7⟩ = .ok ↔
      ∀ p ∈ BooleanHypercube exCCS.s,
        exCCS.computeQ ([1] ++ [(2 : Fr)] ++ [3, 4]) p = 0) := by
  exact ⟨rfl,
    (cccs_check_relation_iff_vanishing
      (CCCS.mk exCCS (Pedersen.commit exParams [3, 4] 7) [2]) exParams
      ⟨[3, 4], 7⟩ rfl).1⟩

/-! ## C5: error model of the two relation checks -/

/-- C5: a failed CCCS hypercube check yields the recoverable
`Err(NotSatisfied)` value, whereas a failed commitment-binding check (in
either method) and a failed LCCCS evaluation-equality check terminate via a
process-aborting assertion. -/
theorem check_relation_error_model :
    (∀ (self : CCCS) (pedersen_params : PedersenParams) (w : Witness),
      self.C = Pedersen.commit pedersen_params w.w w.r_w →
      (∃ p ∈ BooleanHypercube self.ccs.s,
        self.ccs.computeQ ([1] ++ self.x ++ w.w) p ≠ 0) →
      self.check_relation pedersen_params w = .err .notSatisfied) ∧
    (∀ (self : CCCS) (pedersen_params : PedersenParams) (w : Witness),
      self.C ≠ Pedersen.commit pedersen_params w.w w.r_w →
      self.check_relation pedersen_params w = .aborted) ∧
    (∀ (self : LCCCS) (pedersen_params : PedersenParams) (w : Witness),
      self.C ≠ Pedersen.commit pedersen_params w.w w.r_w →
      self.check_relation pedersen_params w = .aborted) ∧
    (∀ (self : LCCCS) (pedersen_params : PedersenParams) (w : Witness),
      self.C = Pedersen.commit pedersen_params w.w w.r_w →
      self.ccs.computeAllSumMzEvals ([self.u] ++ self.x ++ w.w) self.r_x ≠ self.v →
      self.check_relation pedersen_params w = .aborted) := by
  refine ⟨?_, ?_, ?_, ?_⟩
  · intro self pedersen_params w hbind hbad
    unfold CCCS.check_relation
    rw [if_neg (by simp [hbind])]
    exact hypercubeCheck_eq_err _ _ hbad
  · intro self pedersen_params w hbind
    unfold CCCS.check_relation
    rw [if_pos hbind]
  · intro self pedersen_params w hbind
    unfold LCCCS.check_relation
    rw [if_pos hbind]
  · intro self pedersen_params w hbind hne
    unfold LCCCS.check_relation
    rw [if_neg (by simp [hbind])]
    exact if_pos hne

/-- Witness for `check_relation_error_model`: each of the four failure shapes
exercised at a concrete input. -/
theorem check_relation_error_model_witness :
    (CCCS.mk exCCS (Pedersen.commit exParams [3, 4] 7) [5]).check_relation
        exParams ⟨[3, 4], 7⟩ = .err .notSatisfied ∧
    (CCCS.mk exCCS ⟨0⟩ [2]).check_relation exParams ⟨[3, 4], 7⟩ = .aborted ∧
    (LCCCS.mk exCCS ⟨0⟩ 1 [2] [0] [0, 0]).check_relation exParams
        ⟨[3, 4], 7⟩ = .aborted ∧
    (LCCCS.mk exCCS (Pedersen.commit exParams [3, 4] 7) 1 [2] [0] [0, 0]).check_relation
        exParams ⟨[3, 4], 7⟩ = .aborted := by
  refine ⟨?_, ?_, ?_, ?_⟩
  · exact check_relation_error_model.1
      (CCCS.mk exCCS (Pedersen.commit exParams [3, 4] 7) [5]) exParams
      ⟨[3, 4], 7⟩ rfl (by decide)
  · exact check_relation_error_model.2.1 (CCCS.mk exCCS ⟨0⟩ [2]) exParams
      ⟨[3, 4], 7⟩ (by decide)
  · exact check_relation_error_model.2.2.1 (LCCCS.mk exCCS ⟨0⟩ 1 [2] [0] [0, 0])
      exParams ⟨[3, 4], 7⟩ (by decide)
  · exact check_relation_error_model.2.2.2
      (LCCCS.mk exCCS (Pedersen.commit exParams [3, 4] 7) 1 [2] [0] [0, 0])
      exParams ⟨[3, 4], 7⟩ rfl (by decide)

/-! ## Success conditions of the two relation checks (shared helpers) -/

theorem lcccs_check_relation_eq_ok (self : LCCCS) (pedersen_params : PedersenParams)
    (w : Witness) (hbind : self.C = Pedersen.commit pedersen_params w.w w.r_w)
    (hv : self.ccs.computeAllSumMzEvals ([self.u] ++ self.x ++ w.w) self.r_x = self.v) :
    self.check_relation pedersen_params w = .ok := by
  unfold LCCCS.check_relation
  rw [if_neg (by simp [hbind])]
  dsimp only
  rw [if_neg (by simpa using hv)]

theorem cccs_check_relation_eq_ok (self : CCCS) (pedersen_params : PedersenParams)
    (w : Witness) (hbind : self.C = Pedersen.commit pedersen_params w.w w.r_w)
    (hq : ∀ p ∈ BooleanHypercube self.ccs.s,
      self.ccs.computeQ ([1] ++ self.x ++ w.w) p = 0) :
    self.check_relation pedersen_params w = .ok := by
  unfold CCCS.check_relation
  rw [if_neg (by simp [hbind])]
  exact (hypercubeCheck_eq_ok _ _).mpr hq

/-- Splitting the assignment at the public-input boundary and reassembling it
gives it back: `[1] ++ z[1..1+l] ++ z[1+l..] = z` when `z` starts with 1. -/
theorem assignment_reassembles (l : ℕ) (rest : List Fr) :
    [(1 : Fr)] ++ (((1 : Fr) :: rest).drop 1).take l ++
      ((1 : Fr) :: rest).drop (1 + l) = (1 : Fr) :: rest := by
  have hdrop : ((1 : Fr) :: rest).drop (1 + l) = rest.drop l := by
    rw [Nat.add_comm, List.drop_succ_cons]
  rw [hdrop]
  show (1 : Fr) :: (rest.take l ++ rest.drop l) = (1 : Fr) :: rest
  rw [List.take_append_drop]

/-! ## C2: construction followed by verification succeeds -/

/-- C2: for every CCS shape and satisfying assignment `z` (length `n`,
`z[0] = 1`), `to_lcccs` then `LCCCS::check_relation` with the returned
witness succeeds, and `to_cccs` then `CCCS::check_relation` with the returned
witness succeeds. -/
theorem construction_roundtrip (ccs : CCS) (rng : ℕ → Fr)
    (pedersen_params : PedersenParams) (z : List Fr)
    (hn : z.length = ccs.n) (hln : 1 + ccs.l ≤ ccs.n)
    (h0 : z.head? = some 1) (hsat : ccs.satisfiesRelation z) :
    (ccs.to_lcccs rng pedersen_params z).1.check_relation pedersen_params
        (ccs.to_lcccs rng pedersen_params z).2 = .ok ∧
    (ccs.to_cccs rng pedersen_params z).1.check_relation pedersen_params
        (ccs.to_cccs rng pedersen_params z).2 = .ok := by
  obtain ⟨a, rest, rfl⟩ : ∃ a rest, z = a :: rest := by
    cases z with
    | nil => simp at h0
    | cons a rest => exact ⟨a, rest, rfl⟩
  have ha : a = 1 := by simpa using h0
  subst ha
  have hzeq := assignment_reassembles ccs.l rest
  constructor
  · refine lcccs_check_relation_eq_ok _ _ _ rfl ?_
    simp only [CCS.to_lcccs, CCS.compute_v_j]
    rw [hzeq]
  · refine cccs_check_relation_eq_ok _ _ _ rfl ?_
    simp only [CCS.to_cccs]
    intro p hp
    rw [hzeq]
    exact hsat p hp

/-- Witness for `construction_roundtrip` at the concrete example shape and a
concrete satisfying assignment. -/
theorem construction_roundtrip_witness :
    (exZ.length = exCCS.n ∧ 1 + exCCS.l ≤ exCCS.n ∧ exZ.head? = some 1 ∧
      exCCS.satisfiesRelation exZ) ∧
    ((exCCS.to_lcccs exRng exParams exZ).1.check_relation exParams
        (exCCS.to_lcccs exRng exParams exZ).2 = .ok ∧
      (exCCS.to_cccs exRng exParams exZ).1.check_relation exParams
        (exCCS.to_cccs exRng exParams exZ).2 = .ok) := by
  have hsat : exCCS.satisfiesRelation exZ := by
    unfold CCS.satisfiesRelation
    decide
  exact ⟨⟨rfl, by decide, rfl, hsat⟩,
    construction_roundtrip exCCS exRng exParams exZ rfl (by decide) rfl hsat⟩

/-! ## C3: which scalar heads the reconstructed assignment in the LCCCS check -/

/-- Modelled from the spec's words (§4.2), for comparison against the code:
an LCCCS relation check that reconstructs `z = [1] ++ x ++ w` — with a
leading literal 1 rather than the stored accumulation scalar — then
recomputes the claimed evaluations at the stored `r_x` and requires exact
equality with `v`. -/
def lcccsCheckSpecHeadOne (self : LCCCS) (pedersen_params : PedersenParams)
    (w : Witness) : RunResult :=
  if self.C ≠ Pedersen.commit pedersen_params w.w w.r_w then .aborted
  else
    let z : List Fr := [(1 : Fr)] ++ self.x ++ w.w
    let computed_v := self.ccs.computeAllSumMzEvals z self.r_x
    if computed_v ≠ self.v then .aborted else .ok

/-- A tiny shape whose evaluation oracle just reads the head of the
assignment, making the head scalar observable. -/
def headCCS : CCS := ⟨2, 0, 1, 0, fun z _ => [z.headD 0], fun _ _ => 0⟩

/-- An LCCCS over `headCCS` with accumulation scalar `u = 2` and claimed
evaluations matching the code's `[u] ++ x ++ w` reconstruction. -/
def headLCCCS : LCCCS := ⟨headCCS, Pedersen.commit ⟨0, []⟩ [] 0, 2, [], [], [2]⟩

/-- Counterexample to C3: on an instance with `u = 2`, the code's
`LCCCS::check_relation` disagrees with the spec's `z = [1] ++ x ++ w`
reconstruction — the code heads the assignment with the stored `u`. -/
theorem lcccs_check_relation_head_differs :
    headLCCCS.check_relation ⟨0, []⟩ ⟨[], 0⟩ ≠
      lcccsCheckSpecHeadOne headLCCCS ⟨0, []⟩ ⟨[], 0⟩ := by
  decide

/-- C3 (amended): past the binding check, `LCCCS::check_relation` recomputes
the claimed evaluations from `z = [u] ++ x ++ w` (the stored accumulation
scalar, not a literal 1) at the stored `r_x`, and succeeds exactly when they
equal `v` componentwise. -/
theorem lcccs_check_relation_recomputes_with_u (self : LCCCS)
    (pedersen_params : PedersenParams) (w : Witness)
    (hbind : self.C = Pedersen.commit pedersen_params w.w w.r_w) :
    self.check_relation pedersen_params w = .ok ↔
      self.ccs.computeAllSumMzEvals ([self.u] ++ self.x ++ w.w) self.r_x = self.v := by
  unfold LCCCS.check_relation
  rw [if_neg (by simp [hbind])]
  dsimp only
  by_cases h :
      self.ccs.computeAllSumMzEvals ([self.u] ++ self.x ++ w.w) self.r_x = self.v
  · simp [h]
  · simp [h]

/-- Witness for `lcccs_check_relation_recomputes_with_u` at the `u = 2`
instance. -/
theorem lcccs_check_relation_recomputes_with_u_witness :
    headLCCCS.C = Pedersen.commit ⟨0, []⟩ [] 0 ∧
    (headLCCCS.check_relation ⟨0, []⟩ ⟨[], 0⟩ = .ok ↔
      headCCS.computeAllSumMzEvals ([(2 : Fr)] ++ [] ++ []) [] = [2]) :=
  ⟨rfl, lcccs_check_relation_recomputes_with_u headLCCCS ⟨0, []⟩ ⟨[], 0⟩ rfl⟩

/-! ## C7: components of `to_lcccs` -/

/-- C7: for an assignment of length `n` starting with 1, `to_lcccs` splits
`w = z[1+l..]`, draws a fresh blinding `r_w`, commits `C = commit(params, w,
r_w)`, draws `r_x` as `s` field elements from the randomness source, computes
the claimed evaluations through the multilinear-evaluation oracle over the
full assignment, and returns `LCCCS{C, u = 1, x = z[1..1+l], r_x, v}` with
`Witness{w, r_w}`. -/
theorem to_lcccs_components (ccs : CCS) (rng : ℕ → Fr)
    (pedersen_params : PedersenParams) (z : List Fr)
    (hn : z.length = ccs.n) (h0 : z.head? = some 1) :
    (ccs.to_lcccs rng pedersen_params z).2.w = z.drop (1 + ccs.l) ∧
    (ccs.to_lcccs rng pedersen_params z).2.r_w = rng 0 ∧
    (ccs.to_lcccs rng pedersen_params z).1.C =
        Pedersen.commit pedersen_params (z.drop (1 + ccs.l)) (rng 0) ∧
    (ccs.to_lcccs rng pedersen_params z).1.u = 1 ∧
    (ccs.to_lcccs rng pedersen_params z).1.x = (z.drop 1).take ccs.l ∧
    (ccs.to_lcccs rng pedersen_params z).1.r_x =
        (List.range ccs.s).map (fun i => rng (1 + i)) ∧
    (ccs.to_lcccs rng pedersen_params z).1.r_x.length = ccs.s ∧
    (ccs.to_lcccs rng pedersen_params z).1.v =
        ccs.computeAllSumMzEvals z ((List.range ccs.s).map (fun i => rng (1 + i))) :=
  ⟨rfl, rfl, rfl, rfl, rfl, rfl, by simp [CCS.to_lcccs], rfl⟩

/-- Witness for `to_lcccs_components` at the concrete example inputs. -/
theorem to_lcccs_components_witness :
    (exZ.length = exCCS.n ∧ exZ.head? = some 1) ∧
    (exCCS.to_lcccs exRng exParams exZ).1.u = 1 :=
  ⟨⟨rfl, rfl⟩,
    (to_lcccs_components exCCS exRng exParams exZ rfl rfl).2.2.2.1⟩

/-! ## C8: when the accumulation scalar equals 1 -/

/-- Counterexample to C8: folding a fresh running instance (`u = 1`) with the
challenge `rho = 0` produces an LCCCS whose accumulation scalar is again 1,
so it is not true that no fold output has `u = 1`. -/
theorem fold_u_eq_one_at_rho_zero :
    (LCCCS.fold ⟨exCCS, ⟨0⟩, 1, [], [], []⟩ ⟨exCCS, ⟨0⟩, []⟩ [] [] [] 0).u = 1 := by
  decide

/-- C8 (amended): `to_lcccs` always sets `u = 1`; `fold` sets
`u = u1 + rho`, which equals 1 exactly when `rho = 1 − u1` (for example
`rho = 0` on a fresh running instance), so folded instances accumulate `rho`
additively but are not guaranteed to have `u ≠ 1`. -/
theorem u_accumulation (ccs : CCS) (rng : ℕ → Fr)
    (pedersen_params : PedersenParams) (z : List Fr) (lcccs1 : LCCCS)
    (cccs2 : CCCS) (sigmas thetas r_x_prime : List Fr) (rho : Fr) :
    (ccs.to_lcccs rng pedersen_params z).1.u = 1 ∧
    (LCCCS.fold lcccs1 cccs2 sigmas thetas r_x_prime rho).u = lcccs1.u + rho ∧
    ((LCCCS.fold lcccs1 cccs2 sigmas thetas r_x_prime rho).u = 1 ↔
      rho = 1 - lcccs1.u) := by
  refine ⟨rfl, rfl, ?_, ?_⟩
  · intro h
    exact eq_sub_of_add_eq (by rw [add_comm]; exact h)
  · intro h
    show lcccs1.u + rho = 1
    rw [h]
    ring

end HyperNova
